import Mathlib

/-!
Verification of the agent execution core (src/agent/base.py, src/agent/job.py).

The development shallowly embeds the command executor (`Base.parse_output`,
`Base.run_subprocess`, `Base.execute`) and the job/step instrumentation
(`Action`, `Job`, `Step`, the `job`/`step` wrappers) as executable Lean
functions, together with a model of the Python `json` library
(`json_dumps` / `json_loads`) used for record payloads.

Conventions:
- Python `datetime.now()` values are abstract `Nat` timestamps passed in as
  parameters; `datetime` subtraction is integer subtraction.
- Python byte streams are idealised as `List Char`, one `Char` per byte
  (every stream appearing in the claims is ASCII).
- The `str` / `bytes` distinction of Python, which `Base.execute` depends on,
  is kept explicit through the `PyText` type: calling a bytes-only operation
  on a `str` is a Python `TypeError` / `AttributeError`, represented by
  `PyError`.
-/

/- ===================== base.py : output normalisation ===================== -/

/-- One step state of `Base.parse_output` (base.py:86-107): the committed
`lines` list and the in-progress `line`.  The loop body is: a carriage
return overwrites the last committed line (`lines[-1] = line`) when one
exists and resets the in-progress line; a newline commits the in-progress
line; any other character is appended to the in-progress line. -/
def parseOutputLoop : List Char → List String → String → List String × String
  | [], lines, line => (lines, line)
  | c :: cs, lines, line =>
    if c = '\r' then
      parseOutputLoop cs (if lines = [] then lines else lines.dropLast ++ [line]) ""
    else if c = '\n' then
      parseOutputLoop cs (lines ++ [line]) ""
    else
      parseOutputLoop cs lines (line.push c)

/-- Model of `Base.parse_output` (base.py:86-107): run the character loop over
the decoded output stream and return `"\n".join(lines)`.  The final
in-progress line (second component of the loop state) is discarded, exactly
as in the source, which only joins `lines`. -/
def parse_output (stream : List Char) : String :=
  String.intercalate "\n" (parseOutputLoop stream [] "").1

/- ===================== base.py : execute ===================== -/

/-- A Python text value: either `bytes` (idealised per-byte chars) or `str`.
`Base.execute` treats the output of `run_subprocess` as `bytes`, but
`parse_output` produces a `str`; the distinction is load-bearing. -/
inductive PyText where
  | bytes (b : List Char)
  | str (s : String)
deriving DecidableEq

/-- Python-level errors raised by misusing a value of the wrong type. -/
inductive PyError where
  | typeError
  | attributeError
deriving DecidableEq

/-- Model of `subprocess.CalledProcessError` as raised at base.py:81-83:
carries the return code and the captured output (the `str` produced by
`parse_output`). -/
structure CalledProcessError where
  returncode : Nat
  output : PyText
deriving DecidableEq

/-- Model of `Base.run_subprocess` (base.py:62-84): the child's merged
stdout/stderr stream is read through `parse_output` (always — there is no
bypass), and a nonzero exit status raises `CalledProcessError` with the
captured output attached.  Process spawning and stdin writing are external
effects; the stream and return code are parameters. -/
def run_subprocess (stream : List Char) (retcode : Nat) :
    Except CalledProcessError PyText :=
  let output := PyText.str (parse_output stream)
  if retcode ≠ 0 then .error ⟨retcode, output⟩ else .ok output

/-- Model of the state of the `col -b` filter used by `Base.remove_crs`
(base.py:118-120): committed lines, current line buffer, and column
position; `\r` returns the column to 0 and subsequent characters overwrite. -/
def colLoop : List Char → List String → List Char → Nat → List String × List Char
  | [], done, cur, _ => (done, cur)
  | c :: cs, done, cur, col =>
    if c = '\r' then colLoop cs done cur 0
    else if c = '\n' then colLoop cs (done ++ [String.mk cur]) [] 0
    else colLoop cs done (cur.take col ++ [c] ++ cur.drop (col + 1)) (col + 1)

/-- Model of the external `col -b` program on plain text: carriage-return
overwrites are resolved column by column, newlines commit lines. -/
def colB (b : List Char) : String :=
  let s := colLoop b [] [] 0
  String.intercalate "\n" (s.1 ++ [String.mk s.2])

/-- Model of `Base.remove_crs` (base.py:118-120):
`subprocess.check_output(["col", "-b"], input=input)` followed by
`.decode().strip()`.  `check_output` writes `input` to the child's binary
stdin, so a `str` input raises `TypeError` before the child runs. -/
def Base.remove_crs : PyText → Except PyError String
  | .bytes b => .ok (colB b).trim
  | .str _ => .error .typeError

/-- Model of `output.decode().strip()` (base.py:40, 55): `bytes.decode`
decodes (identity on our idealised bytes), while `str` has no `decode`
attribute, raising `AttributeError`. -/
def decodeStrip : PyText → Except PyError String
  | .bytes b => .ok (String.mk b).trim
  | .str _ => .error .attributeError

/-- The `data` dictionary built by `Base.execute` (base.py:31, 44-50, 59):
on success it carries command, directory, start/end/duration and output; on
the failure path it additionally carries the return code and a traceback. -/
structure ExecData where
  command : String
  directory : Option String
  start : Nat
  endTime : Nat
  duration : Int
  output : String
  returncode : Option Nat := none
  traceback : Option String := none
deriving DecidableEq

/-- Outcome of `Base.execute`: a normal return of the data dictionary, an
`AgentException` carrying the data dictionary, or an uncaught Python-level
`TypeError`/`AttributeError`. -/
inductive ExecResult where
  | ok (data : ExecData)
  | agentException (data : ExecData)
  | pythonError (e : PyError)
deriving DecidableEq

/-- True exactly when `Base.execute` returned normally. -/
def ExecResult.returns : ExecResult → Bool
  | .ok _ => true
  | _ => false

/-- Model of `Base.execute` (base.py:18-60).  The spawned process is
abstracted by its merged output `stream` and exit status `retcode`; the two
`datetime.now()` calls are `tstart` and `tend`; `traceback.format_exc()` is
the parameter `tb`.  Logging (`self.log`) is an external side effect and not
tracked.  On both paths the captured output is post-processed by
`self.remove_crs(...)` when `remove_crs` is true and by
`output.decode().strip()` otherwise, applied to the value produced by
`run_subprocess`. -/
def Base.execute (command : String) (directory : Option String)
    (stream : List Char) (retcode : Nat) (remove_crs : Bool)
    (tstart tend : Nat) (tb : String) : ExecResult :=
  match run_subprocess stream retcode with
  | .error e =>
    match (if remove_crs then Base.remove_crs e.output else decodeStrip e.output) with
    | .error pe => .pythonError pe
    | .ok out =>
      .agentException
        { command := command, directory := directory, start := tstart,
          endTime := tend, duration := (tend : Int) - (tstart : Int),
          output := out, returncode := some e.returncode, traceback := some tb }
  | .ok output =>
    match (if remove_crs then Base.remove_crs output else decodeStrip output) with
    | .error pe => .pythonError pe
    | .ok out =>
      .ok
        { command := command, directory := directory, start := tstart,
          endTime := tend, duration := (tend : Int) - (tstart : Int),
          output := out }

/- ===================== parse_output lemmas ===================== -/

/-- Processing a concatenated stream is processing the pieces in sequence. -/
theorem parseOutputLoop_append (a b : List Char) (lines : List String) (line : String) :
    parseOutputLoop (a ++ b) lines line =
      parseOutputLoop b (parseOutputLoop a lines line).1 (parseOutputLoop a lines line).2 := by
  induction a generalizing lines line with
  | nil => simp [parseOutputLoop]
  | cons c a ih =>
    by_cases h1 : c = '\r' <;> by_cases h2 : c = '\n' <;>
      simp [parseOutputLoop, h1, h2, ih]

/-- A stream without newlines or carriage returns never changes the committed
lines; its characters only accumulate in the in-progress line. -/
theorem parseOutputLoop_no_ctrl (suf : List Char) (lines : List String) (line : String)
    (h : ∀ c ∈ suf, c ≠ '\n' ∧ c ≠ '\r') :
    (parseOutputLoop suf lines line).1 = lines := by
  induction suf generalizing line with
  | nil => rfl
  | cons c cs ih =>
    have hc := h c (by simp)
    simp only [parseOutputLoop, if_neg hc.2, if_neg hc.1]
    exact ih _ (fun c hc => h c (List.mem_cons_of_mem _ hc))

/- ===================== Claims about base.py ===================== -/

/-- C1.  The claim says `execute` on a command printing `A\rB\n` with exit 0
returns a CommandResult whose output is exactly `"B"`.  The carriage-return
collapse itself behaves as claimed (`parse_output` yields `"B"`), but
`execute` never returns: `run_subprocess` hands the already-decoded `str`
from `parse_output` to `Base.remove_crs`, whose
`subprocess.check_output(["col", "-b"], input=...)` call requires `bytes`
and raises `TypeError`, so the call crashes instead of producing the
claimed result. -/
theorem claim_c1_execute_crashes_not_returns (tstart tend : Nat) (tb : String) :
    Base.execute "printf \x27A\rB\n\x27" none ['A', '\r', 'B', '\n'] 0 true
        tstart tend tb = .pythonError .typeError ∧
    parse_output ['A', '\r', 'B', '\n'] = "B" :=
  ⟨rfl, by decide⟩

/-- C5.  The claim says a nonzero exit status raises a CommandFailure
(AgentException) carrying the exit code and the captured output; for
`exit 7` the exception should carry code 7 and empty output.
`run_subprocess` does raise `CalledProcessError` with return code 7 and
empty captured output, but the `except` branch of `execute` then applies
`Base.remove_crs` to the `str` attached to the error, raising `TypeError`
before the `AgentException` is ever constructed. -/
theorem claim_c5_failure_path_crashes (tstart tend : Nat) (tb : String) :
    Base.execute "exit 7" none [] 7 true tstart tend tb =
        .pythonError .typeError ∧
    run_subprocess [] 7 = .error ⟨7, .str ""⟩ :=
  ⟨rfl, rfl⟩

/-- C6 counterexample.  The claim says `remove_crs=False` bypasses
carriage-return collapsing and `execute` returns the raw decoded text.  At
the concrete stream `A\rB\n` with exit 0, the stream has already been
collapsed to `"B"` by `parse_output` inside `run_subprocess`, and `execute`
does not return at all: the `False` branch calls `.decode()` on the
already-`str` output and raises `AttributeError`. -/
theorem claim_c6_counterexample :
    Base.execute "printf \x27A\rB\n\x27" none ['A', '\r', 'B', '\n'] 0 false
        0 1 "tb" = .pythonError .attributeError ∧
    (Base.execute "printf \x27A\rB\n\x27" none ['A', '\r', 'B', '\n'] 0 false
        0 1 "tb").returns = false ∧
    parse_output ['A', '\r', 'B', '\n'] = "B" :=
  ⟨rfl, rfl, by decide⟩

/-- C6 amended.  With `remove_crs=False` the carriage-return collapsing is
not bypassed: `run_subprocess` always routes the stream through
`parse_output`, and the `False` branch of `execute` merely skips the second
`col -b` pass before failing with `AttributeError` on `str.decode`, so no
raw text is ever returned. -/
theorem claim_c6_amended_no_bypass (command : String) (directory : Option String)
    (stream : List Char) (tstart tend : Nat) (tb : String) :
    Base.execute command directory stream 0 false tstart tend tb =
        .pythonError .attributeError ∧
    run_subprocess stream 0 = .ok (.str (parse_output stream)) :=
  ⟨rfl, rfl⟩

/-- C9.  When the normalisation loop processes a carriage return and at
least one line has already been committed, the last committed line is
replaced by the current in-progress text and the in-progress line is reset;
in particular the stream `X\nA\rB\n` normalises to `"A\nB"`, not `"X\nB"`. -/
theorem claim_c9_cr_replaces_last_committed :
    (∀ (cs : List Char) (lines : List String) (line : String), lines ≠ [] →
      parseOutputLoop ('\r' :: cs) lines line =
        parseOutputLoop cs (lines.dropLast ++ [line]) "") ∧
    parse_output ['X', '\n', 'A', '\r', 'B', '\n'] = "A\nB" := by
  refine ⟨fun cs lines line h => ?_, by decide⟩
  simp [parseOutputLoop, h]

/-- Witness for C9 at a concrete state: one committed line `"X"`,
in-progress line `"A"`. -/
theorem claim_c9_witness :
    (["X"] ≠ ([] : List String)) ∧
    parseOutputLoop ('\r' :: ['B', '\n']) ["X"] "A" =
      parseOutputLoop ['B', '\n'] (["X"].dropLast ++ ["A"]) "" :=
  ⟨by decide, claim_c9_cr_replaces_last_committed.1 ['B', '\n'] ["X"] "A" (by decide)⟩

/-- C10.  Output that ends without a terminating newline loses its final
in-progress line: appending any newline-free, carriage-return-free suffix to
a stream does not change the normalised output, which remains the
newline-join of the committed lines only. -/
theorem claim_c10_unterminated_line_dropped (pre suf : List Char)
    (h : ∀ c ∈ suf, c ≠ '\n' ∧ c ≠ '\r') :
    parse_output (pre ++ suf) = parse_output pre := by
  unfold parse_output
  rw [parseOutputLoop_append, parseOutputLoop_no_ctrl suf _ _ h]

/-- Witness for C10: a command whose entire output is `A` (no newline)
yields the empty output string. -/
theorem claim_c10_witness :
    (∀ c ∈ ['A'], c ≠ '\n' ∧ c ≠ '\r') ∧
    parse_output ([] ++ ['A']) = parse_output [] ∧
    parse_output ([] : List Char) = "" :=
  ⟨by decide, claim_c10_unterminated_line_dropped [] ['A'] (by decide), by decide⟩

/- ===================== json model : values ===================== -/

/- JSON-representable Python values as stored in record payloads: `None`,
booleans, integers, strings, lists and dicts.  Dicts are association lists
in insertion order, mirroring Python dict ordering.  Arrays and objects are
their own inductives so that recursions stay simple. -/
mutual
inductive JVal where
  | null : JVal
  | bool : Bool → JVal
  | num : Int → JVal
  | str : String → JVal
  | arr : JArr → JVal
  | obj : JObj → JVal
inductive JArr where
  | anil : JArr
  | acons : JVal → JArr → JArr
inductive JObj where
  | onil : JObj
  | ocons : String → JVal → JObj → JObj
end

/- ===================== json model : printing ===================== -/

/-- Numeric value of a decimal digit character. -/
def digitVal (c : Char) : Nat := c.toNat - '0'.toNat

/-- Decimal digits of `n`, most significant first, with explicit recursion
fuel so that the definition is structural (and kernel-reducible). -/
def natToCharsAux : Nat → Nat → List Char
  | 0, _ => []
  | fuel + 1, n =>
    if n < 10 then [Nat.digitChar n]
    else natToCharsAux fuel (n / 10) ++ [Nat.digitChar (n % 10)]

/-- Decimal digits of `n`, most significant first. -/
def natToChars (n : Nat) : List Char := natToCharsAux (n + 1) n

/-- Python `str` of an integer: optional minus sign and decimal digits. -/
def printInt (n : Int) : List Char :=
  if n < 0 then '-' :: natToChars n.natAbs else natToChars n.toNat

/-- JSON whitespace characters. -/
def isWsChar (c : Char) : Bool := c = ' ' || c = '\t' || c = '\n' || c = '\r'

/-- Drop leading JSON whitespace. -/
def skipWs : List Char → List Char
  | [] => []
  | c :: cs => if isWsChar c then skipWs cs else c :: cs

/-- Newline plus indentation at nesting level `lvl` with `w` spaces per level. -/
def nlIndent (w lvl : Nat) : List Char := '\n' :: List.replicate (w * lvl) ' '

/-- Whitespace emitted after an opening bracket: nothing in compact mode,
newline+indent in indent mode (Python `json.dumps(indent=w)`). -/
def wsItem : Option Nat → Nat → List Char
  | none, _ => []
  | some w, lvl => nlIndent w lvl

/-- Whitespace emitted after a comma: one space in compact mode (Python item
separator `", "`), newline+indent in indent mode. -/
def wsSep : Option Nat → Nat → List Char
  | none, _ => [' ']
  | some w, lvl => nlIndent w lvl

/-- Whitespace emitted before a closing bracket: nothing in compact mode,
newline+indent at the enclosing level in indent mode. -/
def wsClose : Option Nat → Nat → List Char
  | none, _ => []
  | some w, lvl => nlIndent w lvl

/-- String body escaping: `"` and backslash get a backslash prefix, other
characters are emitted as is (a simplification of the full `json` escape
table, adequate for round-tripping what this printer emits). -/
def escapeChars : List Char → List Char
  | [] => []
  | c :: cs =>
    if c = '"' || c = '\\' then '\\' :: c :: escapeChars cs
    else c :: escapeChars cs

/-- A printed JSON key followed by the key separator `": "`. -/
def printKey (k : String) : List Char :=
  '"' :: (escapeChars k.data ++ ['"', ':', ' '])

/- Serialiser of JSON values, mirroring Python `json.dumps` text layout:
`indent = none` is the compact default (`", "` / `": "` separators),
`indent = some w` reproduces the `indent=w` multi-line layout. -/
mutual
def printVal (ind : Option Nat) (lvl : Nat) (v : JVal) : List Char :=
  match v with
  | .null => 'n' :: ['u', 'l', 'l']
  | .bool b => if b then 't' :: ['r', 'u', 'e'] else 'f' :: ['a', 'l', 's', 'e']
  | .num n => printInt n
  | .str s => '"' :: (escapeChars s.data ++ ['"'])
  | .arr .anil => ['[', ']']
  | .arr (.acons v2 a) =>
    '[' :: (wsItem ind (lvl + 1) ++ printItems ind (lvl + 1) v2 a ++
      wsClose ind lvl ++ [']'])
  | .obj .onil => ['{', '}']
  | .obj (.ocons k v2 o) =>
    '{' :: (wsItem ind (lvl + 1) ++ printFields ind (lvl + 1) k v2 o ++
      wsClose ind lvl ++ ['}'])
termination_by sizeOf v

def printItems (ind : Option Nat) (lvl : Nat) (v : JVal) (a : JArr) : List Char :=
  match a with
  | .anil => printVal ind lvl v
  | .acons v2 a2 =>
    printVal ind lvl v ++ ',' :: (wsSep ind lvl ++ printItems ind lvl v2 a2)
termination_by sizeOf v + sizeOf a + 1

def printFields (ind : Option Nat) (lvl : Nat) (k : String) (v : JVal) (o : JObj) :
    List Char :=
  match o with
  | .onil => printKey k ++ printVal ind lvl v
  | .ocons k2 v2 o2 =>
    printKey k ++ printVal ind lvl v ++
      ',' :: (wsSep ind lvl ++ printFields ind lvl k2 v2 o2)
termination_by sizeOf v + sizeOf o + 1
end

/- ===================== json model : key sorting ===================== -/

/-- Lexicographic (code point) comparison of character lists, as Python
compares strings. -/
def charListLe : List Char → List Char → Bool
  | [], _ => true
  | _ :: _, [] => false
  | x :: xs, y :: ys => if x = y then charListLe xs ys else decide (x < y)

/-- Strict lexicographic comparison of character lists. -/
def charListLt : List Char → List Char → Bool
  | [], [] => false
  | [], _ :: _ => true
  | _ :: _, [] => false
  | x :: xs, y :: ys => if x = y then charListLt xs ys else decide (x < y)

/-- Python string `<=`. -/
def strLe (a b : String) : Bool := charListLe a.data b.data

/-- Python string `<`. -/
def strLt (a b : String) : Bool := charListLt a.data b.data

/-- Insert a field into an object sorted by key. -/
def insertField (k : String) (v : JVal) : JObj → JObj
  | .onil => .ocons k v .onil
  | .ocons k2 v2 o =>
    if strLe k k2 then .ocons k v (.ocons k2 v2 o)
    else .ocons k2 v2 (insertField k v o)

/- The `sort_keys=True` transform: every object's fields are rewritten in
ascending key order, recursively (`json.dumps` sorts keys at each level as
it serialises; the model factors this into a value transform followed by
plain printing). -/
mutual
def sortKeysV : JVal → JVal
  | .null => .null
  | .bool b => .bool b
  | .num n => .num n
  | .str s => .str s
  | .arr a => .arr (sortKeysA a)
  | .obj o => .obj (sortFields o)
def sortKeysA : JArr → JArr
  | .anil => .anil
  | .acons v a => .acons (sortKeysV v) (sortKeysA a)
def sortFields : JObj → JObj
  | .onil => .onil
  | .ocons k v o => insertField k (sortKeysV v) (sortFields o)
end

/-- Key `k` is strictly below the first key of `o` (or `o` is empty). -/
def keyLtHead (k : String) : JObj → Bool
  | .onil => true
  | .ocons k2 _ _ => strLt k k2

/- Canonical values: every object has strictly increasing keys (hence no
duplicates) at every level.  Python dicts compare order-insensitively, so
every Python value is represented by exactly one canonical `JVal`. -/
mutual
def canonV : JVal → Bool
  | .arr a => canonA a
  | .obj o => canonO o
  | _ => true
def canonA : JArr → Bool
  | .anil => true
  | .acons v a => canonV v && canonA a
def canonO : JObj → Bool
  | .onil => true
  | .ocons k v o => canonV v && canonO o && keyLtHead k o
end

/- ===================== json model : reading ===================== -/

/-- Consume an expected literal character sequence. -/
def expectChars : List Char → List Char → Except Unit (List Char)
  | [], cs => .ok cs
  | _ :: _, [] => .error ()
  | e :: es, c :: cs => if c = e then expectChars es cs else .error ()

/-- Read a string body up to the closing quote, resolving backslash escapes
(a backslash makes the following character literal, matching what
`escapeChars` emits). -/
def parseStrChars : List Char → Except Unit (List Char × List Char)
  | [] => .error ()
  | c :: cs =>
    if c = '"' then .ok ([], cs)
    else if c = '\\' then
      match cs with
      | [] => .error ()
      | c2 :: cs2 =>
        match parseStrChars cs2 with
        | .ok (l, r) => .ok (c2 :: l, r)
        | .error e => .error e
    else
      match parseStrChars cs with
      | .ok (l, r) => .ok (c :: l, r)
      | .error e => .error e

/-- Accumulate leading decimal digits into `acc`. -/
def parseDigitsAcc : Nat → List Char → Nat × List Char
  | acc, [] => (acc, [])
  | acc, c :: cs =>
    if c.isDigit then parseDigitsAcc (acc * 10 + digitVal c) cs
    else (acc, c :: cs)

/-- Read a JSON integer: optional minus sign, then at least one digit. -/
def parseNum : List Char → Except Unit (Int × List Char)
  | [] => .error ()
  | c :: cs =>
    if c = '-' then
      match cs with
      | [] => .error ()
      | d :: _ =>
        if d.isDigit then
          let p := parseDigitsAcc 0 cs
          .ok (-(p.1 : Int), p.2)
        else .error ()
    else if c.isDigit then
      let p := parseDigitsAcc 0 (c :: cs)
      .ok ((p.1 : Int), p.2)
    else .error ()

/- Recursive-descent JSON reader (model of `json.loads`), tolerant of
whitespace between tokens; `fuel` bounds the nesting-plus-element recursion
and is chosen large enough by `json_loads`. -/
mutual
def parseVal : Nat → List Char → Except Unit (JVal × List Char)
  | 0, _ => .error ()
  | fuel + 1, cs =>
    match skipWs cs with
    | [] => .error ()
    | c :: t =>
      if c = 'n' then
        match expectChars ['u', 'l', 'l'] t with
        | .ok r => .ok (.null, r)
        | .error e => .error e
      else if c = 't' then
        match expectChars ['r', 'u', 'e'] t with
        | .ok r => .ok (.bool true, r)
        | .error e => .error e
      else if c = 'f' then
        match expectChars ['a', 'l', 's', 'e'] t with
        | .ok r => .ok (.bool false, r)
        | .error e => .error e
      else if c = '"' then
        match parseStrChars t with
        | .ok (l, r) => .ok (.str (String.mk l), r)
        | .error e => .error e
      else if c = '[' then
        match skipWs t with
        | [] => .error ()
        | c2 :: t2 =>
          if c2 = ']' then .ok (.arr .anil, t2)
          else
            match parseItems fuel t with
            | .ok (a, r) => .ok (.arr a, r)
            | .error e => .error e
      else if c = '{' then
        match skipWs t with
        | [] => .error ()
        | c2 :: t2 =>
          if c2 = '}' then .ok (.obj .onil, t2)
          else
            match parseFields fuel t with
            | .ok (o, r) => .ok (.obj o, r)
            | .error e => .error e
      else
        match parseNum (c :: t) with
        | .ok (n, r) => .ok (.num n, r)
        | .error e => .error e

def parseItems : Nat → List Char → Except Unit (JArr × List Char)
  | 0, _ => .error ()
  | fuel + 1, cs =>
    match parseVal fuel cs with
    | .error e => .error e
    | .ok (v, r) =>
      match skipWs r with
      | [] => .error ()
      | c :: t =>
        if c = ',' then
          match parseItems fuel t with
          | .ok (a, r2) => .ok (.acons v a, r2)
          | .error e => .error e
        else if c = ']' then .ok (.acons v .anil, t)
        else .error ()

def parseFields : Nat → List Char → Except Unit (JObj × List Char)
  | 0, _ => .error ()
  | fuel + 1, cs =>
    match skipWs cs with
    | [] => .error ()
    | c :: t =>
      if c = '"' then
        match parseStrChars t with
        | .error e => .error e
        | .ok (kl, r1) =>
          match skipWs r1 with
          | [] => .error ()
          | c2 :: t2 =>
            if c2 = ':' then
              match parseVal fuel t2 with
              | .error e => .error e
              | .ok (v, r2) =>
                match skipWs r2 with
                | [] => .error ()
                | c3 :: t3 =>
                  if c3 = ',' then
                    match parseFields fuel t3 with
                    | .ok (o, r3) => .ok (.ocons (String.mk kl) v o, r3)
                    | .error e => .error e
                  else if c3 = '}' then .ok (.ocons (String.mk kl) v .onil, t3)
                  else .error ()
            else .error ()
      else .error ()
end

/- Fuel needed by the reader for a printed value: one unit per `parseVal` /
`parseItems` / `parseFields` activation. -/
mutual
def psize (v : JVal) : Nat :=
  match v with
  | .null => 1
  | .bool _ => 1
  | .num _ => 1
  | .str _ => 1
  | .arr .anil => 1
  | .arr (.acons v2 a) => 1 + sizeItems v2 a
  | .obj .onil => 1
  | .obj (.ocons _ v2 o) => 1 + sizeFields v2 o
termination_by sizeOf v

def sizeItems (v : JVal) (a : JArr) : Nat :=
  match a with
  | .anil => 1 + psize v
  | .acons v2 a2 => 1 + psize v + sizeItems v2 a2
termination_by sizeOf v + sizeOf a + 1

def sizeFields (v : JVal) (o : JObj) : Nat :=
  match o with
  | .onil => 1 + psize v
  | .ocons _ v2 o2 => 1 + psize v + sizeFields v2 o2
termination_by sizeOf v + sizeOf o + 1
end

/-- Model of `json.dumps(value, default=str, sort_keys=sortKeys,
indent=indent)` on JSON-representable values (the `default=str` fallback
never fires on these). -/
def json_dumps (sortKeys : Bool) (indent : Option Nat) (v : JVal) : String :=
  String.mk (printVal indent 0 (if sortKeys then sortKeysV v else v))

/-- Model of `json.loads`: read one value, allow trailing whitespace only.
The fuel `2 * length + 2` dominates `psize` of any value the text can
denote. -/
def json_loads (s : String) : Except Unit JVal :=
  match parseVal (2 * s.length + 2) s.data with
  | .ok (v, rest) => if skipWs rest = [] then .ok v else .error ()
  | .error e => .error e

/- ===================== json model : round-trip lemmas ===================== -/

/-- Every character of the list is JSON whitespace. -/
def allWs (l : List Char) : Bool := l.all isWsChar

/-- The list does not begin with a decimal digit. -/
def noDigit : List Char → Bool
  | [] => true
  | c :: _ => !c.isDigit

theorem skipWs_append {w : List Char} (cs : List Char) (hw : allWs w = true) :
    skipWs (w ++ cs) = skipWs cs := by
  induction w with
  | nil => rfl
  | cons c w ih =>
    simp only [allWs, List.all_cons, Bool.and_eq_true] at hw
    simp only [List.cons_append, skipWs, hw.1, if_true]
    exact ih hw.2

theorem skipWs_ws_cons {w : List Char} {c : Char} (t : List Char)
    (hw : allWs w = true) (hc : isWsChar c = false) :
    skipWs (w ++ c :: t) = c :: t := by
  rw [skipWs_append _ hw]
  simp [skipWs, hc]

theorem allWs_wsItem (ind : Option Nat) (lvl : Nat) : allWs (wsItem ind lvl) = true := by
  cases ind <;>
    simp [wsItem, nlIndent, allWs, List.all_eq_true, isWsChar, List.mem_replicate]

theorem allWs_wsSep (ind : Option Nat) (lvl : Nat) : allWs (wsSep ind lvl) = true := by
  cases ind <;>
    simp [wsSep, nlIndent, allWs, List.all_eq_true, isWsChar, List.mem_replicate]

theorem allWs_wsClose (ind : Option Nat) (lvl : Nat) : allWs (wsClose ind lvl) = true := by
  cases ind <;>
    simp [wsClose, nlIndent, allWs, List.all_eq_true, isWsChar, List.mem_replicate]

theorem isWsChar_not_digit {c : Char} (h : isWsChar c = true) : c.isDigit = false := by
  simp only [isWsChar, Bool.or_eq_true, decide_eq_true_eq] at h
  rcases h with ((rfl | rfl) | rfl) | rfl <;> decide

theorem noDigit_ws_cons {w : List Char} {c : Char} (r : List Char)
    (hw : allWs w = true) (hc : c.isDigit = false) :
    noDigit (w ++ c :: r) = true := by
  cases w with
  | nil => simp [noDigit, hc]
  | cons c2 w2 =>
    simp only [allWs, List.all_cons, Bool.and_eq_true] at hw
    simp [noDigit, isWsChar_not_digit hw.1]

theorem digitChar_spec {d : Nat} (h : d < 10) :
    (Nat.digitChar d).isDigit = true ∧ digitVal (Nat.digitChar d) = d ∧
    isWsChar (Nat.digitChar d) = false ∧ Nat.digitChar d ≠ '-' ∧
    Nat.digitChar d ≠ 'n' ∧ Nat.digitChar d ≠ 't' ∧ Nat.digitChar d ≠ 'f' ∧
    Nat.digitChar d ≠ '"' ∧ Nat.digitChar d ≠ '[' ∧ Nat.digitChar d ≠ '{' ∧
    Nat.digitChar d ≠ ']' ∧ Nat.digitChar d ≠ '}' ∧ Nat.digitChar d ≠ ',' := by
  interval_cases d <;> decide

theorem natToCharsAux_head {fuel n : Nat} (h : n < fuel) :
    ∃ d t, natToCharsAux fuel n = Nat.digitChar d :: t ∧ d < 10 := by
  induction fuel generalizing n with
  | zero => omega
  | succ fuel ih =>
    by_cases h10 : n < 10
    · exact ⟨n, [], by simp [natToCharsAux, h10], h10⟩
    · have hlt : n / 10 < fuel := by
        have : n / 10 < n := Nat.div_lt_self (by omega) (by omega)
        omega
      obtain ⟨d, t, he, hd⟩ := ih hlt
      exact ⟨d, t ++ [Nat.digitChar (n % 10)], by simp [natToCharsAux, h10, he], hd⟩

theorem parseDigitsAcc_stop {rest : List Char} (acc : Nat) (h : noDigit rest = true) :
    parseDigitsAcc acc rest = (acc, rest) := by
  cases rest with
  | nil => rfl
  | cons c t =>
    simp only [noDigit, Bool.not_eq_true'] at h
    simp [parseDigitsAcc, h]

theorem parseDigitsAcc_run {fuel : Nat} :
    ∀ {n : Nat}, n < fuel → ∀ (acc : Nat) (rest : List Char),
      ∃ k, parseDigitsAcc acc (natToCharsAux fuel n ++ rest) =
        parseDigitsAcc (acc * 10 ^ k + n) rest := by
  induction fuel with
  | zero => intro n h; omega
  | succ fuel ih =>
    intro n h acc rest
    by_cases h10 : n < 10
    · refine ⟨1, ?_⟩
      have hd := digitChar_spec h10
      simp [natToCharsAux, h10, parseDigitsAcc, hd.1, hd.2.1]
    · have hlt : n / 10 < fuel := by
        have : n / 10 < n := Nat.div_lt_self (by omega) (by omega)
        omega
      obtain ⟨k, hk⟩ := ih hlt acc (Nat.digitChar (n % 10) :: rest)
      refine ⟨k + 1, ?_⟩
      have hd := digitChar_spec (Nat.mod_lt n (by omega) : n % 10 < 10)
      have harith : (acc * 10 ^ k + n / 10) * 10 + digitVal (Nat.digitChar (n % 10)) =
          acc * 10 ^ (k + 1) + n := by
        rw [hd.2.1, pow_succ, ← mul_assoc]
        generalize acc * 10 ^ k = A
        omega
      calc parseDigitsAcc acc (natToCharsAux (fuel + 1) n ++ rest)
          = parseDigitsAcc acc (natToCharsAux fuel (n / 10) ++
              (Nat.digitChar (n % 10) :: rest)) := by
            simp [natToCharsAux, h10]
        _ = parseDigitsAcc (acc * 10 ^ k + n / 10) (Nat.digitChar (n % 10) :: rest) := hk
        _ = parseDigitsAcc (acc * 10 ^ (k + 1) + n) rest := by
            simp [parseDigitsAcc, hd.1, harith]

theorem parseNum_printInt (n : Int) (rest : List Char) (h : noDigit rest = true) :
    parseNum (printInt n ++ rest) = .ok (n, rest) := by
  by_cases hn : n < 0
  · have hp : printInt n = '-' :: natToChars n.natAbs := by simp [printInt, hn]
    rw [hp]
    obtain ⟨d, t, he, hd⟩ := natToCharsAux_head (Nat.lt_succ_self n.natAbs)
    have hds := digitChar_spec hd
    obtain ⟨k, hk⟩ := parseDigitsAcc_run (Nat.lt_succ_self n.natAbs) 0 rest
    have hcs : natToChars n.natAbs ++ rest = Nat.digitChar d :: (t ++ rest) := by
      rw [natToChars, he]; simp
    have hneg : (-(n.natAbs : Int)) = n := by omega
    simp only [List.cons_append, parseNum, if_pos rfl, hcs, hds.1, if_true]
    rw [← hcs, natToChars, hk, parseDigitsAcc_stop _ h]
    simp only [zero_mul, zero_add]
    rw [hneg]
  · have hp : printInt n = natToChars n.toNat := by simp [printInt, hn]
    rw [hp]
    obtain ⟨d, t, he, hd⟩ := natToCharsAux_head (Nat.lt_succ_self n.toNat)
    have hds := digitChar_spec hd
    obtain ⟨k, hk⟩ := parseDigitsAcc_run (Nat.lt_succ_self n.toNat) 0 rest
    have hcs : natToChars n.toNat ++ rest = Nat.digitChar d :: (t ++ rest) := by
      rw [natToChars, he]; simp
    have hpos : ((n.toNat : Int)) = n := by omega
    rw [hcs]
    simp only [parseNum, hds.2.2.2.1, if_neg, hds.1, if_true]
    rw [← hcs, natToChars, hk, parseDigitsAcc_stop _ h]
    simp only [zero_mul, zero_add]
    rw [hpos]
    simp

theorem parseStrChars_escape (l rest : List Char) :
    parseStrChars (escapeChars l ++ '"' :: rest) = .ok (l, rest) := by
  induction l with
  | nil =>
    simp only [escapeChars, List.nil_append]
    rw [parseStrChars.eq_def]
    simp
  | cons c cs ih =>
    by_cases h1 : c = '"'
    · subst h1
      simp only [escapeChars, if_pos, List.cons_append]
      rw [parseStrChars.eq_def]
      simp [ih]
    · by_cases h2 : c = '\\'
      · subst h2
        simp only [escapeChars, if_pos, List.cons_append, Bool.or_true]
        rw [parseStrChars.eq_def]
        simp [ih]
      · have he : escapeChars (c :: cs) = c :: escapeChars cs := by
          simp [escapeChars, h1, h2]
        rw [he, List.cons_append, parseStrChars.eq_def]
        simp [h1, h2, ih]

theorem printInt_head (n : Int) :
    ∃ c t, printInt n = c :: t ∧ isWsChar c = false ∧ c ≠ 'n' ∧ c ≠ 't' ∧
      c ≠ 'f' ∧ c ≠ '"' ∧ c ≠ '[' ∧ c ≠ '{' ∧ c ≠ ']' ∧ c ≠ '}' ∧ c ≠ ',' := by
  by_cases hn : n < 0
  · exact ⟨'-', natToChars n.natAbs, by simp [printInt, hn], by decide, by decide,
      by decide, by decide, by decide, by decide, by decide, by decide, by decide,
      by decide⟩
  · obtain ⟨d, t, he, hd⟩ := natToCharsAux_head (Nat.lt_succ_self n.toNat)
    have hds := digitChar_spec hd
    refine ⟨Nat.digitChar d, t, ?_, hds.2.2.1, hds.2.2.2.2.1, hds.2.2.2.2.2.1,
      hds.2.2.2.2.2.2.1, hds.2.2.2.2.2.2.2.1, hds.2.2.2.2.2.2.2.2.1,
      hds.2.2.2.2.2.2.2.2.2.1, hds.2.2.2.2.2.2.2.2.2.2.1,
      hds.2.2.2.2.2.2.2.2.2.2.2.1, hds.2.2.2.2.2.2.2.2.2.2.2.2⟩
    simp [printInt, hn, natToChars, he]

theorem printVal_head (ind : Option Nat) (lvl : Nat) (v : JVal) :
    ∃ c t, printVal ind lvl v = c :: t ∧ isWsChar c = false ∧
      c ≠ ']' ∧ c ≠ '}' ∧ c ≠ ',' := by
  cases v with
  | null =>
    exact ⟨'n', ['u', 'l', 'l'], by simp [printVal], by decide, by decide, by decide,
      by decide⟩
  | bool b =>
    cases b with
    | true =>
      exact ⟨'t', ['r', 'u', 'e'], by simp [printVal], by decide, by decide, by decide,
        by decide⟩
    | false =>
      exact ⟨'f', ['a', 'l', 's', 'e'], by simp [printVal], by decide, by decide,
        by decide, by decide⟩
  | num n =>
    obtain ⟨c, t, he, h1, _, _, _, _, _, _, h2, h3, h4⟩ := printInt_head n
    exact ⟨c, t, by simp [printVal, he], h1, h2, h3, h4⟩
  | str s =>
    exact ⟨'"', escapeChars s.data ++ ['"'], by simp [printVal], by decide, by decide,
      by decide, by decide⟩
  | arr a =>
    cases a with
    | anil =>
      exact ⟨'[', [']'], by simp [printVal], by decide, by decide, by decide, by decide⟩
    | acons v2 a2 =>
      exact ⟨'[', wsItem ind (lvl + 1) ++ (printItems ind (lvl + 1) v2 a2 ++
        (wsClose ind lvl ++ [']'])), by simp [printVal], by decide, by decide,
        by decide, by decide⟩
  | obj o =>
    cases o with
    | onil =>
      exact ⟨'{', ['}'], by simp [printVal], by decide, by decide, by decide, by decide⟩
    | ocons k v2 o2 =>
      exact ⟨'{', wsItem ind (lvl + 1) ++ (printFields ind (lvl + 1) k v2 o2 ++
        (wsClose ind lvl ++ ['}'])), by simp [printVal], by decide, by decide,
        by decide, by decide⟩

theorem printItems_expose (ind : Option Nat) (lvl : Nat) (v : JVal) (a : JArr) :
    ∃ s, printItems ind lvl v a = printVal ind lvl v ++ s := by
  cases a with
  | anil => exact ⟨[], by simp [printItems]⟩
  | acons v2 a2 =>
    exact ⟨',' :: (wsSep ind lvl ++ printItems ind lvl v2 a2), by simp [printItems]⟩

theorem printFields_head (ind : Option Nat) (lvl : Nat) (k : String) (v : JVal) (o : JObj) :
    ∃ t, printFields ind lvl k v o = '"' :: t := by
  cases o with
  | onil =>
    exact ⟨escapeChars k.data ++ '"' :: ':' :: ' ' :: printVal ind lvl v,
      by simp [printFields, printKey]⟩
  | ocons k2 v2 o2 =>
    exact ⟨escapeChars k.data ++ '"' :: ':' :: ' ' ::
      (printVal ind lvl v ++ ',' :: (wsSep ind lvl ++ printFields ind lvl k2 v2 o2)),
      by simp [printFields, printKey]⟩

theorem psize_pos (v : JVal) : 1 ≤ psize v := by
  cases v with
  | arr a => cases a <;> simp [psize]
  | obj o => cases o <;> simp [psize]
  | _ => simp [psize]

theorem sizeItems_pos (v : JVal) (a : JArr) : 1 ≤ sizeItems v a := by
  cases a with
  | anil => simp [sizeItems]
  | acons v2 a2 => simp [sizeItems]; omega

theorem sizeFields_pos (v : JVal) (o : JObj) : 1 ≤ sizeFields v o := by
  cases o with
  | onil => simp [sizeFields]
  | ocons k2 v2 o2 => simp [sizeFields]; omega

theorem parse_print_fuel : ∀ fuel : Nat,
    (∀ (ind : Option Nat) (lvl : Nat) (v : JVal) (ws rest : List Char),
      allWs ws = true → noDigit rest = true → psize v ≤ fuel →
      parseVal fuel (ws ++ printVal ind lvl v ++ rest) = .ok (v, rest)) ∧
    (∀ (ind : Option Nat) (lvl : Nat) (v : JVal) (a : JArr) (ws wsc rest : List Char),
      allWs ws = true → allWs wsc = true → sizeItems v a ≤ fuel →
      parseItems fuel (ws ++ printItems ind lvl v a ++ wsc ++ ']' :: rest) =
        .ok (.acons v a, rest)) ∧
    (∀ (ind : Option Nat) (lvl : Nat) (k : String) (v : JVal) (o : JObj)
        (ws wsc rest : List Char),
      allWs ws = true → allWs wsc = true → sizeFields v o ≤ fuel →
      parseFields fuel (ws ++ printFields ind lvl k v o ++ wsc ++ '}' :: rest) =
        .ok (.ocons k v o, rest)) := by
  intro fuel
  induction fuel with
  | zero =>
    refine ⟨fun ind lvl v ws rest _ _ hs => absurd hs ?_,
            fun ind lvl v a ws wsc rest _ _ hs => absurd hs ?_,
            fun ind lvl k v o ws wsc rest _ _ hs => absurd hs ?_⟩
    · have := psize_pos v; omega
    · have := sizeItems_pos v a; omega
    · have := sizeFields_pos v o; omega
  | succ fuel ih =>
    obtain ⟨ihV, ihI, ihF⟩ := ih
    refine ⟨?_, ?_, ?_⟩
    · intro ind lvl v ws rest hws hrest hsize
      cases v with
      | null =>
        rw [show printVal ind lvl JVal.null = ['n', 'u', 'l', 'l'] from by simp [printVal],
          parseVal.eq_def]
        simp only [List.cons_append, List.nil_append, List.append_assoc]
        rw [skipWs_ws_cons _ hws (by decide)]
        simp [expectChars]
      | bool b =>
        cases b with
        | true =>
          rw [show printVal ind lvl (JVal.bool true) = ['t', 'r', 'u', 'e'] from by
            simp [printVal], parseVal.eq_def]
          simp only [List.cons_append, List.nil_append, List.append_assoc]
          rw [skipWs_ws_cons _ hws (by decide)]
          simp [expectChars]
        | false =>
          rw [show printVal ind lvl (JVal.bool false) = ['f', 'a', 'l', 's', 'e'] from by
            simp [printVal], parseVal.eq_def]
          simp only [List.cons_append, List.nil_append, List.append_assoc]
          rw [skipWs_ws_cons _ hws (by decide)]
          simp [expectChars]
      | str s =>
        rw [show printVal ind lvl (JVal.str s) = '"' :: (escapeChars s.data ++ ['"']) from by
          simp [printVal], parseVal.eq_def]
        simp only [List.cons_append, List.nil_append, List.append_assoc]
        rw [skipWs_ws_cons _ hws (by decide)]
        simp [parseStrChars_escape]
      | num n =>
        obtain ⟨c, t, he, hw, hn, ht, hf, hq, hb, hbr, _, _, _⟩ := printInt_head n
        rw [show printVal ind lvl (JVal.num n) = printInt n from by simp [printVal], he,
          parseVal.eq_def]
        simp only [List.cons_append, List.nil_append, List.append_assoc]
        rw [skipWs_ws_cons _ hws hw]
        simp only [if_neg hn, if_neg ht, if_neg hf, if_neg hq, if_neg hb, if_neg hbr]
        rw [show (c :: (t ++ rest)) = printInt n ++ rest from by rw [he]; simp,
          parseNum_printInt n rest hrest]
      | arr a =>
        cases a with
        | anil =>
          rw [show printVal ind lvl (JVal.arr JArr.anil) = ['[', ']'] from by
            simp [printVal], parseVal.eq_def]
          simp only [List.cons_append, List.nil_append, List.append_assoc]
          rw [skipWs_ws_cons _ hws (by decide)]
          simp [skipWs, isWsChar]
        | acons v2 a2 =>
          have hsz : sizeItems v2 a2 ≤ fuel := by
            have hq : psize (JVal.arr (JArr.acons v2 a2)) = 1 + sizeItems v2 a2 := by
              simp [psize]
            omega
          obtain ⟨s, hsE⟩ := printItems_expose ind (lvl + 1) v2 a2
          obtain ⟨c2, t2, hpv, hcw, hc2r, _, _⟩ := printVal_head ind (lvl + 1) v2
          rw [show printVal ind lvl (JVal.arr (JArr.acons v2 a2)) =
            '[' :: (wsItem ind (lvl + 1) ++ printItems ind (lvl + 1) v2 a2 ++
              wsClose ind lvl ++ [']']) from by simp [printVal], parseVal.eq_def]
          simp only [List.cons_append, List.nil_append, List.append_assoc]
          rw [skipWs_ws_cons _ hws (by decide)]
          have hstep : skipWs (wsItem ind (lvl + 1) ++ (printItems ind (lvl + 1) v2 a2 ++
              (wsClose ind lvl ++ (']' :: rest)))) = c2 :: (t2 ++ (s ++
              (wsClose ind lvl ++ (']' :: rest)))) := by
            rw [skipWs_append _ (allWs_wsItem ind (lvl + 1)), hsE, hpv]
            simp only [List.cons_append, List.append_assoc]
            simp [skipWs, hcw]
          have hI := ihI ind (lvl + 1) v2 a2 (wsItem ind (lvl + 1)) (wsClose ind lvl) rest
            (allWs_wsItem ind (lvl + 1)) (allWs_wsClose ind lvl) hsz
          simp only [List.append_assoc] at hI
          simp only [hstep]
          simp [hc2r, hI]
      | obj o =>
        cases o with
        | onil =>
          rw [show printVal ind lvl (JVal.obj JObj.onil) = ['{', '}'] from by
            simp [printVal], parseVal.eq_def]
          simp only [List.cons_append, List.nil_append, List.append_assoc]
          rw [skipWs_ws_cons _ hws (by decide)]
          simp [skipWs, isWsChar]
        | ocons k2 v2 o2 =>
          have hsz : sizeFields v2 o2 ≤ fuel := by
            have hq : psize (JVal.obj (JObj.ocons k2 v2 o2)) = 1 + sizeFields v2 o2 := by
              simp [psize]
            omega
          obtain ⟨pt, hpf⟩ := printFields_head ind (lvl + 1) k2 v2 o2
          rw [show printVal ind lvl (JVal.obj (JObj.ocons k2 v2 o2)) =
            '{' :: (wsItem ind (lvl + 1) ++ printFields ind (lvl + 1) k2 v2 o2 ++
              wsClose ind lvl ++ ['}']) from by simp [printVal], parseVal.eq_def]
          simp only [List.cons_append, List.nil_append, List.append_assoc]
          rw [skipWs_ws_cons _ hws (by decide)]
          have hstep : skipWs (wsItem ind (lvl + 1) ++ (printFields ind (lvl + 1) k2 v2 o2 ++
              (wsClose ind lvl ++ ('}' :: rest)))) = '"' :: (pt ++
              (wsClose ind lvl ++ ('}' :: rest))) := by
            rw [skipWs_append _ (allWs_wsItem ind (lvl + 1)), hpf]
            simp only [List.cons_append, List.append_assoc]
            simp [skipWs, isWsChar]
          have hF := ihF ind (lvl + 1) k2 v2 o2 (wsItem ind (lvl + 1)) (wsClose ind lvl) rest
            (allWs_wsItem ind (lvl + 1)) (allWs_wsClose ind lvl) hsz
          simp only [List.append_assoc] at hF
          simp only [hstep]
          simp [hF]
    · intro ind lvl v a ws wsc rest hws hwsc hsize
      cases a with
      | anil =>
        have hszv : psize v ≤ fuel := by
          have hq : sizeItems v JArr.anil = 1 + psize v := by simp [sizeItems]
          omega
        rw [show printItems ind lvl v JArr.anil = printVal ind lvl v from by
          simp [printItems], parseItems.eq_def]
        simp only [List.append_assoc]
        have hV := ihV ind lvl v ws (wsc ++ ']' :: rest) hws
          (noDigit_ws_cons _ hwsc (by decide)) hszv
        simp only [List.append_assoc] at hV
        simp only [hV]
        rw [skipWs_ws_cons _ hwsc (by decide)]
        simp
      | acons v2 a2 =>
        have hszv : psize v ≤ fuel ∧ sizeItems v2 a2 ≤ fuel := by
          have hq : sizeItems v (JArr.acons v2 a2) = 1 + psize v + sizeItems v2 a2 := by
            simp [sizeItems]
          have h1 := psize_pos v
          have h2 := sizeItems_pos v2 a2
          omega
        rw [show printItems ind lvl v (JArr.acons v2 a2) = printVal ind lvl v ++
          ',' :: (wsSep ind lvl ++ printItems ind lvl v2 a2) from by simp [printItems],
          parseItems.eq_def]
        simp only [List.cons_append, List.nil_append, List.append_assoc]
        have hV := ihV ind lvl v ws (',' :: (wsSep ind lvl ++ (printItems ind lvl v2 a2 ++
          (wsc ++ ']' :: rest)))) hws (by simp [noDigit]) hszv.1
        simp only [List.append_assoc] at hV
        simp only [hV]
        have hskipc : skipWs (',' :: (wsSep ind lvl ++ (printItems ind lvl v2 a2 ++
            (wsc ++ ']' :: rest)))) = ',' :: (wsSep ind lvl ++ (printItems ind lvl v2 a2 ++
            (wsc ++ ']' :: rest))) := by
          simp [skipWs, isWsChar]
        rw [hskipc]
        have hI := ihI ind lvl v2 a2 (wsSep ind lvl) wsc rest (allWs_wsSep ind lvl) hwsc
          hszv.2
        simp only [List.append_assoc] at hI
        simp [hI]
    · intro ind lvl k v o ws wsc rest hws hwsc hsize
      cases o with
      | onil =>
        have hszv : psize v ≤ fuel := by
          have hq : sizeFields v JObj.onil = 1 + psize v := by simp [sizeFields]
          omega
        rw [show printFields ind lvl k v JObj.onil = '"' :: (escapeChars k.data ++
          ('"' :: ':' :: ' ' :: printVal ind lvl v)) from by
            simp [printFields, printKey], parseFields.eq_def]
        simp only [List.cons_append, List.nil_append, List.append_assoc]
        rw [skipWs_ws_cons _ hws (by decide)]
        have hesc := parseStrChars_escape k.data
          (':' :: ' ' :: (printVal ind lvl v ++ (wsc ++ '}' :: rest)))
        simp only [List.append_assoc] at hesc
        simp only [hesc]
        have hskipc : skipWs (':' :: ' ' :: (printVal ind lvl v ++ (wsc ++ '}' :: rest))) =
            ':' :: ' ' :: (printVal ind lvl v ++ (wsc ++ '}' :: rest)) := by
          simp [skipWs, isWsChar]
        rw [hskipc]
        have hV := ihV ind lvl v [' '] (wsc ++ '}' :: rest) (by decide)
          (noDigit_ws_cons _ hwsc (by decide)) hszv
        simp only [List.append_assoc, List.cons_append, List.nil_append] at hV
        simp only [hV]
        rw [skipWs_ws_cons _ hwsc (by decide)]
        simp [show String.mk k.data = k from rfl]
      | ocons k2 v2 o2 =>
        have hszv : psize v ≤ fuel ∧ sizeFields v2 o2 ≤ fuel := by
          have hq : sizeFields v (JObj.ocons k2 v2 o2) = 1 + psize v + sizeFields v2 o2 := by
            simp [sizeFields]
          have h1 := psize_pos v
          have h2 := sizeFields_pos v2 o2
          omega
        rw [show printFields ind lvl k v (JObj.ocons k2 v2 o2) = '"' :: (escapeChars k.data ++
          ('"' :: ':' :: ' ' :: (printVal ind lvl v ++
            ',' :: (wsSep ind lvl ++ printFields ind lvl k2 v2 o2)))) from by
            simp [printFields, printKey], parseFields.eq_def]
        simp only [List.cons_append, List.nil_append, List.append_assoc]
        rw [skipWs_ws_cons _ hws (by decide)]
        have hesc := parseStrChars_escape k.data
          (':' :: ' ' :: (printVal ind lvl v ++ (',' :: (wsSep ind lvl ++
            (printFields ind lvl k2 v2 o2 ++ (wsc ++ '}' :: rest))))))
        simp only [List.append_assoc] at hesc
        simp only [hesc]
        have hskipc : skipWs (':' :: ' ' :: (printVal ind lvl v ++ (',' :: (wsSep ind lvl ++
            (printFields ind lvl k2 v2 o2 ++ (wsc ++ '}' :: rest)))))) =
            ':' :: ' ' :: (printVal ind lvl v ++ (',' :: (wsSep ind lvl ++
            (printFields ind lvl k2 v2 o2 ++ (wsc ++ '}' :: rest))))) := by
          simp [skipWs, isWsChar]
        rw [hskipc]
        have hV := ihV ind lvl v [' '] (',' :: (wsSep ind lvl ++
          (printFields ind lvl k2 v2 o2 ++ (wsc ++ '}' :: rest)))) (by decide)
          (by simp [noDigit]) hszv.1
        simp only [List.append_assoc, List.cons_append, List.nil_append] at hV
        simp only [hV]
        have hskipc2 : skipWs (',' :: (wsSep ind lvl ++ (printFields ind lvl k2 v2 o2 ++
            (wsc ++ '}' :: rest)))) = ',' :: (wsSep ind lvl ++ (printFields ind lvl k2 v2 o2 ++
            (wsc ++ '}' :: rest))) := by
          simp [skipWs, isWsChar]
        rw [hskipc2]
        have hF := ihF ind lvl k2 v2 o2 (wsSep ind lvl) wsc rest (allWs_wsSep ind lvl) hwsc
          hszv.2
        simp only [List.append_assoc] at hF
        simp [hF, show String.mk k.data = k from rfl]

theorem printInt_len (n : Int) : 1 ≤ (printInt n).length := by
  obtain ⟨c, t, he, _⟩ := printInt_head n
  simp [he]

theorem psize_le_print : ∀ N : Nat,
    (∀ (ind : Option Nat) (lvl : Nat) (v : JVal), psize v ≤ N →
      psize v ≤ 2 * (printVal ind lvl v).length) ∧
    (∀ (ind : Option Nat) (lvl : Nat) (v : JVal) (a : JArr), sizeItems v a ≤ N →
      sizeItems v a ≤ 2 * (printItems ind lvl v a).length + 1) ∧
    (∀ (ind : Option Nat) (lvl : Nat) (k : String) (v : JVal) (o : JObj),
      sizeFields v o ≤ N →
      sizeFields v o ≤ 2 * (printFields ind lvl k v o).length + 1) := by
  intro N
  induction N with
  | zero =>
    refine ⟨fun ind lvl v hs => absurd hs ?_, fun ind lvl v a hs => absurd hs ?_,
            fun ind lvl k v o hs => absurd hs ?_⟩
    · have := psize_pos v; omega
    · have := sizeItems_pos v a; omega
    · have := sizeFields_pos v o; omega
  | succ N ih =>
    obtain ⟨ihV, ihI, ihF⟩ := ih
    refine ⟨?_, ?_, ?_⟩
    · intro ind lvl v hsize
      cases v with
      | null => simp [psize, printVal]
      | bool b => cases b <;> simp [psize, printVal]
      | num n =>
        have := printInt_len n
        simp [psize, printVal]
        omega
      | str s => simp [psize, printVal]; omega
      | arr a =>
        cases a with
        | anil => simp [psize, printVal]
        | acons v2 a2 =>
          have hq : psize (JVal.arr (JArr.acons v2 a2)) = 1 + sizeItems v2 a2 := by
            simp [psize]
          have hI := ihI ind (lvl + 1) v2 a2 (by omega)
          simp only [printVal, List.length_cons, List.length_append]
          omega
      | obj o =>
        cases o with
        | onil => simp [psize, printVal]
        | ocons k2 v2 o2 =>
          have hq : psize (JVal.obj (JObj.ocons k2 v2 o2)) = 1 + sizeFields v2 o2 := by
            simp [psize]
          have hF := ihF ind (lvl + 1) k2 v2 o2 (by omega)
          simp only [printVal, List.length_cons, List.length_append]
          omega
    · intro ind lvl v a hsize
      cases a with
      | anil =>
        have hq : sizeItems v JArr.anil = 1 + psize v := by simp [sizeItems]
        have hV := ihV ind lvl v (by omega)
        simp only [printItems]
        omega
      | acons v2 a2 =>
        have hq : sizeItems v (JArr.acons v2 a2) = 1 + psize v + sizeItems v2 a2 := by
          simp [sizeItems]
        have h1 := psize_pos v
        have h2 := sizeItems_pos v2 a2
        have hV := ihV ind lvl v (by omega)
        have hI := ihI ind lvl v2 a2 (by omega)
        simp only [printItems, List.length_append, List.length_cons]
        omega
    · intro ind lvl k v o hsize
      cases o with
      | onil =>
        have hq : sizeFields v JObj.onil = 1 + psize v := by simp [sizeFields]
        have hV := ihV ind lvl v (by omega)
        simp only [printFields, List.length_append, List.length_cons]
        omega
      | ocons k2 v2 o2 =>
        have hq : sizeFields v (JObj.ocons k2 v2 o2) = 1 + psize v + sizeFields v2 o2 := by
          simp [sizeFields]
        have h1 := psize_pos v
        have h2 := sizeFields_pos v2 o2
        have hV := ihV ind lvl v (by omega)
        have hF := ihF ind lvl k2 v2 o2 (by omega)
        simp only [printFields, List.length_append, List.length_cons]
        omega

theorem json_loads_print (ind : Option Nat) (v : JVal) :
    json_loads (String.mk (printVal ind 0 v)) = .ok v := by
  have hb := (psize_le_print (psize v)).1 ind 0 v le_rfl
  have hmain := (parse_print_fuel (2 * (printVal ind 0 v).length + 2)).1 ind 0 v [] []
    rfl rfl (by omega)
  simp only [List.nil_append, List.append_nil] at hmain
  unfold json_loads
  rw [show (String.mk (printVal ind 0 v)).length = (printVal ind 0 v).length from rfl,
    show (String.mk (printVal ind 0 v)).data = printVal ind 0 v from rfl, hmain]
  simp [skipWs]

theorem charListLt_le : ∀ a b : List Char, charListLt a b = true → charListLe a b = true := by
  intro a
  induction a with
  | nil => intro b _; cases b <;> simp [charListLe]
  | cons c as ih =>
    intro b h
    cases b with
    | nil => simp [charListLt] at h
    | cons c2 bs =>
      by_cases hc : c = c2
      · subst hc
        simp only [charListLt, if_pos rfl] at h
        simp [charListLe, ih bs h]
      · simp only [charListLt, if_neg hc] at h
        simp [charListLe, hc, h]

theorem insertField_head (k : String) (v : JVal) (o : JObj) (h : keyLtHead k o = true) :
    insertField k v o = .ocons k v o := by
  cases o with
  | onil => simp [insertField]
  | ocons k2 v2 o2 =>
    simp only [keyLtHead, strLt] at h
    simp [insertField, strLe, charListLt_le _ _ h]

theorem JVal_sizeOf_pos (v : JVal) : 0 < sizeOf v := by
  cases v <;> simp

theorem JArr_sizeOf_pos (a : JArr) : 0 < sizeOf a := by
  cases a <;> simp

theorem JObj_sizeOf_pos (o : JObj) : 0 < sizeOf o := by
  cases o <;> simp

theorem sortKeys_canon_id : ∀ N : Nat,
    (∀ v : JVal, sizeOf v ≤ N → canonV v = true → sortKeysV v = v) ∧
    (∀ a : JArr, sizeOf a ≤ N → canonA a = true → sortKeysA a = a) ∧
    (∀ o : JObj, sizeOf o ≤ N → canonO o = true → sortFields o = o) := by
  intro N
  induction N with
  | zero =>
    refine ⟨fun v h _ => absurd h ?_, fun a h _ => absurd h ?_, fun o h _ => absurd h ?_⟩
    · have := JVal_sizeOf_pos v; omega
    · have := JArr_sizeOf_pos a; omega
    · have := JObj_sizeOf_pos o; omega
  | succ N ih =>
    obtain ⟨ihV, ihA, ihO⟩ := ih
    refine ⟨?_, ?_, ?_⟩
    · intro v hs hc
      cases v with
      | null => simp [sortKeysV]
      | bool b => simp [sortKeysV]
      | num n => simp [sortKeysV]
      | str s => simp [sortKeysV]
      | arr a =>
        simp only [canonV] at hc
        have hsz : sizeOf a ≤ N := by
          have : sizeOf (JVal.arr a) = 1 + sizeOf a := by simp
          omega
        simp [sortKeysV, ihA a hsz hc]
      | obj o =>
        simp only [canonV] at hc
        have hsz : sizeOf o ≤ N := by
          have : sizeOf (JVal.obj o) = 1 + sizeOf o := by simp
          omega
        simp [sortKeysV, ihO o hsz hc]
    · intro a hs hc
      cases a with
      | anil => simp [sortKeysA]
      | acons v a2 =>
        simp only [canonA, Bool.and_eq_true] at hc
        have hsz : sizeOf v ≤ N ∧ sizeOf a2 ≤ N := by
          have : sizeOf (JArr.acons v a2) = 1 + sizeOf v + sizeOf a2 := by simp
          omega
        simp [sortKeysA, ihV v hsz.1 hc.1, ihA a2 hsz.2 hc.2]
    · intro o hs hc
      cases o with
      | onil => simp [sortFields]
      | ocons k v o2 =>
        simp only [canonO, Bool.and_eq_true] at hc
        have hsz : sizeOf v ≤ N ∧ sizeOf o2 ≤ N := by
          have : sizeOf (JObj.ocons k v o2) = 1 + sizeOf k + sizeOf v + sizeOf o2 := by simp
          omega
        rw [show sortFields (JObj.ocons k v o2) = insertField k (sortKeysV v) (sortFields o2)
          from by simp [sortFields], ihV v hsz.1 hc.1.1, ihO o2 hsz.2 hc.1.2,
          insertField_head k v o2 hc.2]

theorem canonV_sort_eq (v : JVal) (h : canonV v = true) : sortKeysV v = v :=
  (sortKeys_canon_id (sizeOf v)).1 v le_rfl h

/-- Compact `json.dumps(data, default=str)` round-trips through `json.loads`
losslessly for every JSON-representable value. -/
theorem json_loads_dumps (v : JVal) : json_loads (json_dumps false none v) = .ok v := by
  rw [show json_dumps false none v = String.mk (printVal none 0 v) from by simp [json_dumps]]
  exact json_loads_print none v

/-- `json.dumps(..., sort_keys=True, indent=w)` deserialises back to the
key-sorted transform of the value. -/
theorem json_loads_dumps_sorted (ind : Option Nat) (v : JVal) :
    json_loads (json_dumps true ind v) = .ok (sortKeysV v) := by
  rw [show json_dumps true ind v = String.mk (printVal ind 0 (sortKeysV v)) from by
    simp [json_dumps]]
  exact json_loads_print ind (sortKeysV v)

/- ===================== job.py : records and state machine ===================== -/

/-- Merged field set of `JobModel` and `StepModel` rows (job.py:137-172); the
`Action` operations (job.py:37-51) act uniformly on whichever model sits in
`self.model`, so one structure serves both.  `job` is the StepModel foreign
key, `enqueue` the JobModel enqueue timestamp; fields a given record kind
does not use stay `none`.  `end` is called `endTime` (`end` is reserved in
Lean); timestamps are abstract `Nat`s and `duration` an `Int` difference.
`data` carries the peewee default text `"{}"` until assigned. -/
structure ActionModel where
  id : Option Nat := none
  name : Option String := none
  job : Option Nat := none
  status : Option String := none
  data : Option String := some "{}"
  enqueue : Option Nat := none
  start : Option Nat := none
  endTime : Option Nat := none
  duration : Option Int := none
deriving DecidableEq

/-- Model of peewee `save` as invoked by the `@save` decorator
(job.py:31-34): an unsaved row (no id) is inserted and assigned the next
primary key; a saved row is updated in place. -/
def ActionModel.save (m : ActionModel) (freshId : Nat) : ActionModel :=
  match m.id with
  | none => { m with id := some freshId }
  | some _ => m

/-- Model of `Action.end` (job.py:48-51): set `end = now` and
`duration = end - start`.  When `start` was never set, Python raises
`TypeError` on `datetime - None`; that case is the `none` result. -/
def Action.endRecord (m : ActionModel) (now : Nat) : Option ActionModel :=
  match m.start with
  | some s =>
    some { m with endTime := some now, duration := some ((now : Int) - (s : Int)) }
  | none => none

/-- Model of `Action.success` (job.py:38-41): status `Success`, payload
serialised with `json.dumps(data, default=str)`, then `end`. -/
def Action.success (m : ActionModel) (data : JVal) (now : Nat) : Option ActionModel :=
  Action.endRecord
    { m with status := some "Success", data := some (json_dumps false none data) } now

/-- Model of `Action.failure` (job.py:43-46): payload serialised, status
`Failure`, then `end`. -/
def Action.failure (m : ActionModel) (data : JVal) (now : Nat) : Option ActionModel :=
  Action.endRecord
    { m with data := some (json_dumps false none data), status := some "Failure" } now

/-- Model of `Job.start` (job.py:65-68): stamps `start = now` and status
`Running` on the job's existing model.  The `@save` then updates the row in
place (the id of a loaded record is untouched). -/
def Job.start (m : ActionModel) (now : Nat) : ActionModel :=
  { m with start := some now, status := some "Running" }

/-- The dictionary serialised into the enqueue payload (job.py:76-85):
`{"function": function.__func__.__name__, "args": args, "kwargs": kwargs}`,
in source insertion order (`sort_keys=True` reorders it during dumping). -/
def enqueuePayload (funcName : String) (args : JArr) (kwargs : JObj) : JVal :=
  .obj (.ocons "function" (.str funcName) (.ocons "args" (.arr args)
    (.ocons "kwargs" (.obj kwargs) .onil)))

/-- Model of `Job.enqueue` (job.py:70-85): a fresh JobModel with the given
name, status `Pending`, `enqueue = now` and the payload serialised with
`json.dumps(..., default=str, sort_keys=True, indent=4)`; the `@save`
decorator then inserts it, assigning the row id. -/
def Job.enqueue (name funcName : String) (args : JArr) (kwargs : JObj)
    (now freshId : Nat) : ActionModel :=
  ActionModel.save
    { id := none, name := some name, job := none, status := some "Pending",
      data := some (json_dumps true (some 4) (enqueuePayload funcName args kwargs)),
      enqueue := some now, start := none, endTime := none, duration := none } freshId

/-- Model of `Step.start` (job.py:54-61): a fresh StepModel with the given
name, owning job id, `start = now` and status `Running`, inserted by the
`@save` decorator. -/
def Step.start (name : String) (jobId : Option Nat) (now freshId : Nat) : ActionModel :=
  ActionModel.save
    { id := none, name := some name, job := jobId, status := some "Running",
      data := some "{}", enqueue := none, start := some now, endTime := none,
      duration := none } freshId

/-- Outcome of calling the wrapped operation body: normal return,
`AgentException` (the command-failure signal, carrying its `.data`), or any
other exception together with its formatted traceback. -/
inductive PyOutcome where
  | ok (v : JVal)
  | agentExc (data : JVal)
  | exc (tb : String)

/-- What a wrapper invocation hands back to its caller: the operation's own
return value, the new job record's id, or a re-raised exception. -/
inductive WrapReturn where
  | value (v : JVal)
  | jobId (id : Option Nat)
  | raised (e : PyOutcome)

/-- One `queue().enqueue_call(...)` submission (job.py:129-131). -/
structure QueueSubmission where
  func : String
  args : JArr
  kwargs : JObj
  timeout : Int
  result_ttl : Int

/-- Result of running a `job`/`step` wrapper: what was returned or raised,
the final state of the record the wrapper owns (`none` only when
`Action.end` hits an unset `start`), whether the wrapped body was executed,
and the queue submissions made. -/
structure WrapResult where
  ret : WrapReturn
  record : Option ActionModel
  bodyExecuted : Bool
  queued : List QueueSubmission

/-- Model of the `job(name)` wrapper (job.py:109-134).  `inWorker` is the
`get_current_job(...)` probe, `body` the outcome the wrapped operation
produces if executed, `record` the job's current model
(`instance.job_record.model`), `t1`/`t2` the `datetime.now()` readings.
Inside worker context the body runs inline between `Job.start` and
`Action.success`/`Action.failure`, and its result or exception passes
through unchanged.  Outside, the body is not executed: a Pending record is
created, the call is submitted to the queue with `timeout=3600` and
`result_ttl=-1`, and the new record's id is returned. -/
def jobWrapper (name : String) (inWorker : Bool) (funcName : String)
    (args : JArr) (kwargs : JObj) (body : PyOutcome) (record : ActionModel)
    (freshId t1 t2 : Nat) : WrapResult :=
  if inWorker then
    let m1 := Job.start record t1
    match body with
    | .ok v =>
      { ret := .value v, record := Action.success m1 v t2, bodyExecuted := true,
        queued := [] }
    | .agentExc d =>
      { ret := .raised (.agentExc d), record := Action.failure m1 d t2,
        bodyExecuted := true, queued := [] }
    | .exc tb =>
      { ret := .raised (.exc tb),
        record := Action.failure m1 (.obj (.ocons "traceback" (.str tb) .onil)) t2,
        bodyExecuted := true, queued := [] }
  else
    let m := Job.enqueue name funcName args kwargs t1 freshId
    { ret := .jobId m.id, record := some m, bodyExecuted := false,
      queued := [⟨funcName, args, kwargs, 3600, -1⟩] }

/-- Model of the `step(name)` wrapper (job.py:88-106): a StepRecord is
created already `Running` under the current job before the body runs; on
normal return the record is marked `Success` with the result, on
`AgentException` it is marked `Failure` with the exception's data, on any
other exception `Failure` with a `{"traceback": ...}` payload — and the
original exception is re-raised unchanged. -/
def stepWrapper (name : String) (jobId : Option Nat) (body : PyOutcome)
    (freshId t1 t2 : Nat) : WrapResult :=
  let m1 := Step.start name jobId t1 freshId
  match body with
  | .ok v =>
    { ret := .value v, record := Action.success m1 v t2, bodyExecuted := true,
      queued := [] }
  | .agentExc d =>
    { ret := .raised (.agentExc d), record := Action.failure m1 d t2,
      bodyExecuted := true, queued := [] }
  | .exc tb =>
    { ret := .raised (.exc tb),
      record := Action.failure m1 (.obj (.ocons "traceback" (.str tb) .onil)) t2,
      bodyExecuted := true, queued := [] }

/- ===================== Claims about job.py ===================== -/

/-- C2.  A job-wrapped operation invoked outside worker context never runs
the body; it creates a JobRecord with status `Pending`, enqueue time `now`,
and a payload serialising the operation identity with its args and kwargs
(`sort_keys=True, indent=4`); it submits the operation and arguments to the
queue with `timeout=3600` and unlimited result retention (`result_ttl=-1`);
and it returns exactly the new record's id. -/
theorem claim_c2_enqueue_outside_worker (name funcName : String) (args : JArr)
    (kwargs : JObj) (body : PyOutcome) (record : ActionModel) (freshId t1 t2 : Nat) :
    (jobWrapper name false funcName args kwargs body record freshId t1 t2).bodyExecuted
        = false ∧
    (jobWrapper name false funcName args kwargs body record freshId t1 t2).record =
      some { id := some freshId, name := some name, job := none,
             status := some "Pending",
             data := some (json_dumps true (some 4) (enqueuePayload funcName args kwargs)),
             enqueue := some t1, start := none, endTime := none, duration := none } ∧
    (jobWrapper name false funcName args kwargs body record freshId t1 t2).queued =
      [⟨funcName, args, kwargs, 3600, -1⟩] ∧
    (jobWrapper name false funcName args kwargs body record freshId t1 t2).ret =
      .jobId (some freshId) :=
  ⟨rfl, rfl, rfl, rfl⟩

/-- C3.  A job-wrapped operation invoked inside worker context transitions
the owning record from `Pending` to `Running` (with `start = t1`), executes
the body inline, records `Success` with the serialised return value on
normal return and `Failure` on error, returns the operation's own result
(or re-raises its exception unchanged), and produces no job id and no queue
submission. -/
theorem claim_c3_inline_inside_worker (name funcName : String) (args : JArr)
    (kwargs : JObj) (body : PyOutcome) (record : ActionModel) (freshId t1 t2 : Nat)
    (_hpend : record.status = some "Pending") :
    (Job.start record t1).status = some "Running" ∧
    (Job.start record t1).start = some t1 ∧
    (jobWrapper name true funcName args kwargs body record freshId t1 t2).bodyExecuted
        = true ∧
    (jobWrapper name true funcName args kwargs body record freshId t1 t2).queued = [] ∧
    (match body with
     | .ok v =>
       (jobWrapper name true funcName args kwargs body record freshId t1 t2).ret =
         .value v ∧
       (jobWrapper name true funcName args kwargs body record freshId t1 t2).record =
         some { Job.start record t1 with
                status := some "Success",
                data := some (json_dumps false none v), endTime := some t2,
                duration := some ((t2 : Int) - (t1 : Int)) }
     | .agentExc d =>
       (jobWrapper name true funcName args kwargs body record freshId t1 t2).ret =
         .raised (.agentExc d) ∧
       (jobWrapper name true funcName args kwargs body record freshId t1 t2).record =
         some { Job.start record t1 with
                status := some "Failure",
                data := some (json_dumps false none d), endTime := some t2,
                duration := some ((t2 : Int) - (t1 : Int)) }
     | .exc tb =>
       (jobWrapper name true funcName args kwargs body record freshId t1 t2).ret =
         .raised (.exc tb) ∧
       (jobWrapper name true funcName args kwargs body record freshId t1 t2).record =
         some { Job.start record t1 with
                status := some "Failure",
                data := some (json_dumps false none
                (.obj (.ocons "traceback" (.str tb) .onil))),
                endTime := some t2, duration := some ((t2 : Int) - (t1 : Int)) }) := by
  cases body <;> exact ⟨rfl, rfl, rfl, rfl, rfl, rfl⟩

/-- Witness for C3 at a concrete Pending record and a normally returning
body. -/
theorem claim_c3_witness :
    (({ status := some "Pending", start := none } : ActionModel).status =
        some "Pending") ∧
    (Job.start { status := some "Pending", start := none } 4).status =
        some "Running" ∧
    (jobWrapper "Deploy" true "deploy" JArr.anil JObj.onil (PyOutcome.ok (JVal.num 7))
        { status := some "Pending", start := none } 1 4 9).ret =
      WrapReturn.value (JVal.num 7) :=
  ⟨rfl,
    (claim_c3_inline_inside_worker "Deploy" "deploy" JArr.anil JObj.onil
      (PyOutcome.ok (JVal.num 7)) { status := some "Pending", start := none }
      1 4 9 rfl).1,
    ((claim_c3_inline_inside_worker "Deploy" "deploy" JArr.anil JObj.onil
      (PyOutcome.ok (JVal.num 7)) { status := some "Pending", start := none }
      1 4 9 rfl).2.2.2.2).1⟩

/-- C4.  A step-wrapped operation creates a StepRecord that is already
`Running` under the current job (with `start = t1`) before the body runs;
on normal return the record is `Success` with the serialised return value
and that value is returned; on `AgentException` the record is `Failure`
with the exception's structured data; on any other error the record is
`Failure` with a serialised traceback payload; and in every error case the
original exception is re-raised unchanged. -/
theorem claim_c4_step_wrapper (name : String) (jobId : Option Nat) (body : PyOutcome)
    (freshId t1 t2 : Nat) :
    (Step.start name jobId t1 freshId).status = some "Running" ∧
    (Step.start name jobId t1 freshId).job = jobId ∧
    (Step.start name jobId t1 freshId).start = some t1 ∧
    (stepWrapper name jobId body freshId t1 t2).queued = [] ∧
    (match body with
     | .ok v =>
       (stepWrapper name jobId body freshId t1 t2).ret = .value v ∧
       (stepWrapper name jobId body freshId t1 t2).record =
         some { Step.start name jobId t1 freshId with
                status := some "Success",
                data := some (json_dumps false none v), endTime := some t2,
                duration := some ((t2 : Int) - (t1 : Int)) }
     | .agentExc d =>
       (stepWrapper name jobId body freshId t1 t2).ret = .raised (.agentExc d) ∧
       (stepWrapper name jobId body freshId t1 t2).record =
         some { Step.start name jobId t1 freshId with
                status := some "Failure",
                data := some (json_dumps false none d), endTime := some t2,
                duration := some ((t2 : Int) - (t1 : Int)) }
     | .exc tb =>
       (stepWrapper name jobId body freshId t1 t2).ret = .raised (.exc tb) ∧
       (stepWrapper name jobId body freshId t1 t2).record =
         some { Step.start name jobId t1 freshId with
                status := some "Failure",
                data := some (json_dumps false none
                (.obj (.ocons "traceback" (.str tb) .onil))),
                endTime := some t2, duration := some ((t2 : Int) - (t1 : Int)) }) := by
  cases body <;> exact ⟨rfl, rfl, rfl, rfl, rfl, rfl⟩

/-- C7.  On any record whose `start` is set, `success(payload)` and
`failure(payload)` set the corresponding terminal status, store the payload
serialised as JSON text in `data`, set `end = now` and
`duration = end - start`; and the serialised text deserialises back to the
payload, so everything written to `data` is valid serialised data. -/
theorem claim_c7_success_failure (m : ActionModel) (payload : JVal) (now s : Nat)
    (hstart : m.start = some s) :
    Action.success m payload now = some { m with
                                          status := some "Success",
                                          data := some (json_dumps false none payload), endTime := some now,
                                          duration := some ((now : Int) - (s : Int)) } ∧
    Action.failure m payload now = some { m with
                                          data := some (json_dumps false none payload), status := some "Failure",
                                          endTime := some now, duration := some ((now : Int) - (s : Int)) } ∧
    json_loads (json_dumps false none payload) = .ok payload := by
  refine ⟨?_, ?_, json_loads_dumps payload⟩ <;>
    simp [Action.success, Action.failure, Action.endRecord, hstart]

/-- Witness for C7 at a concrete started record and payload. -/
theorem claim_c7_witness :
    (({ start := some 5 } : ActionModel).start = some 5) ∧
    Action.success { start := some 5 } (JVal.num 3) 9 =
      some { ({ start := some 5 } : ActionModel) with
             status := some "Success",
             data := some (json_dumps false none (JVal.num 3)), endTime := some 9,
             duration := some ((9 : Int) - (5 : Int)) } :=
  ⟨rfl, (claim_c7_success_failure { start := some 5 } (JVal.num 3) 9 5 rfl).1⟩

/-- C8.  The payload stored by `Job.enqueue` deserialises to exactly the
operation identity, args and kwargs that were serialised: for canonical
argument values (objects with sorted keys — the canonical representatives
of Python dicts, whose equality ignores key order), `json.loads` of the
stored text returns the same function name, args and kwargs, with the top
level in the sorted key order `args`, `function`, `kwargs` produced by
`sort_keys=True`. -/
theorem claim_c8_enqueue_roundtrip (name funcName : String) (args : JArr)
    (kwargs : JObj) (now freshId : Nat)
    (hargs : canonA args = true) (hkw : canonO kwargs = true) :
    (Job.enqueue name funcName args kwargs now freshId).data =
      some (json_dumps true (some 4) (enqueuePayload funcName args kwargs)) ∧
    json_loads (json_dumps true (some 4) (enqueuePayload funcName args kwargs)) =
      .ok (.obj (.ocons "args" (.arr args) (.ocons "function" (.str funcName)
        (.ocons "kwargs" (.obj kwargs) .onil)))) := by
  refine ⟨rfl, ?_⟩
  rw [json_loads_dumps_sorted]
  have ha : sortKeysA args = args :=
    (sortKeys_canon_id (sizeOf args)).2.1 args le_rfl hargs
  have hk : sortFields kwargs = kwargs :=
    (sortKeys_canon_id (sizeOf kwargs)).2.2 kwargs le_rfl hkw
  have h1 : strLe "args" "kwargs" = true := by decide
  have h2 : strLe "function" "args" = false := by decide
  have h3 : strLe "function" "kwargs" = true := by decide
  simp [enqueuePayload, sortKeysV, sortFields, ha, hk, insertField, h1, h2, h3]

/-- Witness for C8 at a concrete enqueue payload. -/
theorem claim_c8_witness :
    canonA (JArr.acons (JVal.str "x") JArr.anil) = true ∧
    canonO (JObj.ocons "config" (JVal.num 1) JObj.onil) = true ∧
    json_loads (json_dumps true (some 4) (enqueuePayload "new_site"
        (JArr.acons (JVal.str "x") JArr.anil)
        (JObj.ocons "config" (JVal.num 1) JObj.onil))) =
      .ok (.obj (.ocons "args" (.arr (JArr.acons (JVal.str "x") JArr.anil))
        (.ocons "function" (.str "new_site")
          (.ocons "kwargs" (.obj (JObj.ocons "config" (JVal.num 1) JObj.onil))
            .onil)))) :=
  ⟨by decide, by decide,
    (claim_c8_enqueue_roundtrip "New Site" "new_site"
      (JArr.acons (JVal.str "x") JArr.anil)
      (JObj.ocons "config" (JVal.num 1) JObj.onil) 3 1
      (by decide) (by decide)).2⟩
